import Mathlib

/-!
Verification of the picotunnel reverse-tunnel proxy core.

The Lean definitions below are a shallow embedding of the Go sources:

* `internal/tunnel/mux.go` — the per-stream header protocol
  (`StreamManager.OpenStream` / `StreamManager.handleStream`) and the
  bidirectional copy primitive (`CopyBidirectional`);
* the tunnel connection (`Connection`, `WebSocketConn.Read`);
* `internal/server/tunnel.go` — the tunnel registry
  (`registerConnection`, `unregisterConnection`, `GetConnection`,
  `performHealthChecks`);
* the ingress proxying (`ProxyManager.handleHTTP`,
  `ProxyManager.handleTCPConnection`, `ProxyManager.wrapStreamWithHeader`);
* `internal/server/store.go` — the token lookup (`GetTunnelByToken`).

Bytes are modelled as natural numbers; Go strings as Lean strings
(valid Unicode); the standard library's JSON codec is modelled at the
byte level for the exact two-field object the program marshals.
-/

set_option maxRecDepth 8192

namespace Picotunnel

/-! ## UTF-8, modelling how Go strings are laid out as bytes -/

/-- Lowercase hexadecimal digit character for a value below 16
(the digits Go's `encoding/json` writes in a `\u00xx` escape). -/
def hexDigitChar (n : Nat) : Char :=
  match n with
  | 0 => '0' | 1 => '1' | 2 => '2' | 3 => '3' | 4 => '4'
  | 5 => '5' | 6 => '6' | 7 => '7' | 8 => '8' | 9 => '9'
  | 10 => 'a' | 11 => 'b' | 12 => 'c' | 13 => 'd' | 14 => 'e'
  | _ => 'f'

/-- Standard UTF-8 encoding of one Unicode scalar value (1 to 4 bytes). -/
def utf8EncodeChar (c : Char) : List Nat :=
  if c.toNat < 0x80 then [c.toNat]
  else if c.toNat < 0x800 then [0xC0 + c.toNat / 64, 0x80 + c.toNat % 64]
  else if c.toNat < 0x10000 then
    [0xE0 + c.toNat / 4096, 0x80 + c.toNat / 64 % 64, 0x80 + c.toNat % 64]
  else
    [0xF0 + c.toNat / 262144, 0x80 + c.toNat / 4096 % 64, 0x80 + c.toNat / 64 % 64,
      0x80 + c.toNat % 64]

/-- UTF-8 encoding of a sequence of characters. -/
def utf8Bytes (s : List Char) : List Nat :=
  (s.map utf8EncodeChar).flatten

/-- Decode one UTF-8-encoded scalar value from the front of a byte list,
returning the code point and the remaining bytes.  Overlong encodings,
stray continuation bytes and out-of-range values are rejected. -/
def utf8DecodeChar : List Nat → Option (Nat × List Nat)
  | [] => none
  | b :: rest =>
    if b < 0x80 then some (b, rest)
    else if b < 0xC0 then none
    else if b < 0xE0 then
      match rest with
      | b1 :: r =>
        if 0x80 ≤ b1 ∧ b1 < 0xC0 then
          let n := (b - 0xC0) * 64 + (b1 - 0x80)
          if 0x80 ≤ n then some (n, r) else none
        else none
      | [] => none
    else if b < 0xF0 then
      match rest with
      | b1 :: b2 :: r =>
        if (0x80 ≤ b1 ∧ b1 < 0xC0) ∧ (0x80 ≤ b2 ∧ b2 < 0xC0) then
          let n := (b - 0xE0) * 4096 + (b1 - 0x80) * 64 + (b2 - 0x80)
          if 0x800 ≤ n then some (n, r) else none
        else none
      | _ => none
    else if b < 0xF8 then
      match rest with
      | b1 :: b2 :: b3 :: r =>
        if (0x80 ≤ b1 ∧ b1 < 0xC0) ∧ (0x80 ≤ b2 ∧ b2 < 0xC0) ∧
            (0x80 ≤ b3 ∧ b3 < 0xC0) then
          let n := (b - 0xF0) * 262144 + (b1 - 0x80) * 4096 +
            (b2 - 0x80) * 64 + (b3 - 0x80)
          if 0x10000 ≤ n ∧ n < 0x110000 then some (n, r) else none
        else none
      | _ => none
    else none

/-! ## The stream header and its JSON body

`mux.go` declares

  type StreamHeader struct \x7b
      Type   string `json:"type"`
      Target string `json:"target"`
  \x7d

and marshals it with `json.Marshal`, so the body is always the object
`\x7b"type":…,"target":…\x7d` with the two strings escaped the way
`encoding/json` escapes them (HTML escaping on, the default). -/

/-- The per-stream header of `mux.go`: stream type ("http" or "tcp") and
the target address the agent will dial. -/
structure StreamHeader where
  type : String
  target : String
deriving DecidableEq, Repr

/-- How Go's `encoding/json` encoder writes one character of a string
value: quote, backslash, newline, carriage return and tab get two-character
escapes; other control characters get `\u00xx`; `<`, `>`, `&` (HTML
escaping is on by default) and U+2028/U+2029 get `\uXXXX`; everything
else is written literally. -/
def escapeChar (c : Char) : List Char :=
  if c = '"' then ['\\', '"']
  else if c = '\\' then ['\\', '\\']
  else if c = '\n' then ['\\', 'n']
  else if c = '\r' then ['\\', 'r']
  else if c = '\t' then ['\\', 't']
  else if c.toNat < 0x20 then
    ['\\', 'u', '0', '0', hexDigitChar (c.toNat / 16), hexDigitChar (c.toNat % 16)]
  else if c = '<' then ['\\', 'u', '0', '0', '3', 'c']
  else if c = '>' then ['\\', 'u', '0', '0', '3', 'e']
  else if c = '&' then ['\\', 'u', '0', '0', '2', '6']
  else if c.toNat = 0x2028 then ['\\', 'u', '2', '0', '2', '8']
  else if c.toNat = 0x2029 then ['\\', 'u', '2', '0', '2', '9']
  else [c]

/-- JSON string escaping of a whole string. -/
def escapeString (s : List Char) : List Char :=
  (s.map escapeChar).flatten

/-- Byte form of a Lean string literal (used for the fixed JSON scaffolding). -/
def strBytes (s : String) : List Nat :=
  utf8Bytes s.data

/-- The JSON body `json.Marshal` produces for a `StreamHeader`:
`\x7b"type":"…","target":"…"\x7d` as UTF-8 bytes. -/
def marshalHeader (h : StreamHeader) : List Nat :=
  strBytes "\x7b\"type\":\"" ++ utf8Bytes (escapeString h.type.data) ++
    strBytes "\",\"target\":\"" ++ utf8Bytes (escapeString h.target.data) ++
    strBytes "\"\x7d"

/-- Numeric value of one hexadecimal digit byte (both cases), as the JSON
decoder reads the four digits of a `\uXXXX` escape. -/
def hexVal (b : Nat) : Option Nat :=
  if 0x30 ≤ b ∧ b ≤ 0x39 then some (b - 0x30)
  else if 0x61 ≤ b ∧ b ≤ 0x66 then some (b - 0x61 + 10)
  else if 0x41 ≤ b ∧ b ≤ 0x46 then some (b - 0x41 + 10)
  else none

theorem utf8DecodeChar_length {l : List Nat} {n : Nat} {r : List Nat}
    (h : utf8DecodeChar l = some (n, r)) : r.length < l.length := by
  match l with
  | [] => simp [utf8DecodeChar] at h
  | b :: rest =>
    simp only [utf8DecodeChar] at h
    split_ifs at h with h1 h2 h3 h4 h5
    · simp only [Option.some.injEq, Prod.mk.injEq] at h
      obtain ⟨rfl, rfl⟩ := h
      simp
    · rcases rest with _ | ⟨b1, r1⟩
      · simp at h
      · simp only [] at h
        split_ifs at h
        simp only [Option.some.injEq, Prod.mk.injEq] at h
        obtain ⟨rfl, rfl⟩ := h
        simp
        omega
    · rcases rest with _ | ⟨b1, _ | ⟨b2, r2⟩⟩
      · simp at h
      · simp at h
      · simp only [] at h
        split_ifs at h
        simp only [Option.some.injEq, Prod.mk.injEq] at h
        obtain ⟨rfl, rfl⟩ := h
        simp
        omega
    · rcases rest with _ | ⟨b1, _ | ⟨b2, _ | ⟨b3, r3⟩⟩⟩
      · simp at h
      · simp at h
      · simp at h
      · simp only [] at h
        split_ifs at h
        simp only [Option.some.injEq, Prod.mk.injEq] at h
        obtain ⟨rfl, rfl⟩ := h
        simp
        omega

theorem utf8DecodeChar_encode (c : Char) (r : List Nat) :
    utf8DecodeChar (utf8EncodeChar c ++ r) = some (c.toNat, r) := by
  have hlt : c.toNat < 0x110000 := by
    have hv := c.valid
    rcases hv with h | h
    · simp only [Char.toNat]
      omega
    · simp only [Char.toNat]
      omega
  unfold utf8EncodeChar
  split_ifs with h1 h2 h3
  · simp [utf8DecodeChar, h1]
  · simp only [List.cons_append, List.nil_append, utf8DecodeChar]
    rw [if_neg (by omega), if_neg (by omega), if_pos (by omega)]
    rw [if_pos (by omega), if_pos (by omega)]
    congr 2
    omega
  · simp only [List.cons_append, List.nil_append, utf8DecodeChar]
    rw [if_neg (by omega), if_neg (by omega), if_neg (by omega), if_pos (by omega)]
    rw [if_pos (by constructor <;> constructor <;> omega), if_pos (by omega)]
    congr 2
    omega
  · simp only [List.cons_append, List.nil_append, utf8DecodeChar]
    rw [if_neg (by omega), if_neg (by omega), if_neg (by omega), if_neg (by omega),
      if_pos (by omega)]
    rw [if_pos (by refine ⟨⟨by omega, by omega⟩, ⟨by omega, by omega⟩, by omega, by omega⟩),
      if_pos (by constructor <;> omega)]
    congr 2
    omega

/-- One lexical item of a JSON string value: either the closing quote
(`done`, with the bytes after it) or one decoded character. -/
inductive StrTok where
  | done (rest : List Nat)
  | ch (c : Char) (rest : List Nat)
deriving DecidableEq

/-- A `\uXXXX` escape: four hexadecimal digit bytes giving one character
(surrogate values, which the canonical encoder never emits, are rejected). -/
def decodeUEscape (r : List Nat) : Option StrTok :=
  match r with
  | h1 :: h2 :: h3 :: h4 :: r2 =>
    match hexVal h1, hexVal h2, hexVal h3, hexVal h4 with
    | some v1, some v2, some v3, some v4 =>
      if (((v1 * 16 + v2) * 16 + v3) * 16 + v4).isValidChar then
        some (.ch (Char.ofNat (((v1 * 16 + v2) * 16 + v3) * 16 + v4)) r2)
      else none
    | _, _, _, _ => none
  | _ => none

/-- A backslash escape: the byte after the backslash and the bytes after it. -/
def decodeEscape (e : Nat) (r : List Nat) : Option StrTok :=
  if e = 0x22 then some (.ch '"' r)
  else if e = 0x5C then some (.ch '\\' r)
  else if e = 0x2F then some (.ch '/' r)
  else if e = 0x62 then some (.ch (Char.ofNat 8) r)
  else if e = 0x66 then some (.ch (Char.ofNat 12) r)
  else if e = 0x6E then some (.ch '\n' r)
  else if e = 0x72 then some (.ch '\r' r)
  else if e = 0x74 then some (.ch '\t' r)
  else if e = 0x75 then decodeUEscape r
  else none

/-- A multi-byte UTF-8 sequence starting at a byte at or above 0x80. -/
def decodeUtf8Tok (b : Nat) (rest : List Nat) : Option StrTok :=
  match utf8DecodeChar (b :: rest) with
  | some (n, r) => if n.isValidChar then some (.ch (Char.ofNat n) r) else none
  | none => none

/-- Byte-level model of how Go's `encoding/json` reads one item of a JSON
string value: the closing quote, a plain byte, a backslash escape, or a
multi-byte UTF-8 sequence. -/
def parseStringTok (l : List Nat) : Option StrTok :=
  match l with
  | [] => none
  | b :: rest =>
    if b = 0x22 then some (.done rest)
    else if b = 0x5C then
      match rest with
      | [] => none
      | e :: r => decodeEscape e r
    else if b < 0x20 then none
    else if b < 0x80 then some (.ch (Char.ofNat b) rest)
    else decodeUtf8Tok b rest

theorem decodeUEscape_length {r : List Nat} {c : Char} {rest : List Nat}
    (h : decodeUEscape r = some (.ch c rest)) : rest.length + 4 = r.length := by
  rcases r with _ | ⟨x1, _ | ⟨x2, _ | ⟨x3, _ | ⟨x4, r2⟩⟩⟩⟩
  · simp [decodeUEscape] at h
  · simp [decodeUEscape] at h
  · simp [decodeUEscape] at h
  · simp [decodeUEscape] at h
  · unfold decodeUEscape at h
    simp only [] at h
    cases hv1 : hexVal x1 <;> rw [hv1] at h
    case none => simp at h
    cases hv2 : hexVal x2 <;> rw [hv2] at h
    case none => simp at h
    cases hv3 : hexVal x3 <;> rw [hv3] at h
    case none => simp at h
    cases hv4 : hexVal x4 <;> rw [hv4] at h
    case none => simp at h
    simp only [] at h
    split_ifs at h
    simp only [Option.some.injEq, StrTok.ch.injEq] at h
    obtain ⟨rfl, rfl⟩ := h
    simp

theorem decodeEscape_length {e : Nat} {r : List Nat} {c : Char} {rest : List Nat}
    (h : decodeEscape e r = some (.ch c rest)) : rest.length ≤ r.length := by
  unfold decodeEscape at h
  split_ifs at h
  all_goals
    first
    | (simp only [Option.some.injEq, StrTok.ch.injEq] at h
       obtain ⟨rfl, rfl⟩ := h
       omega)
    | (have h4 := decodeUEscape_length h
       omega)
    | simp at h

theorem decodeUtf8Tok_length {b : Nat} {l : List Nat} {c : Char} {rest : List Nat}
    (h : decodeUtf8Tok b l = some (.ch c rest)) : rest.length < l.length + 1 := by
  unfold decodeUtf8Tok at h
  cases hdec : utf8DecodeChar (b :: l) <;> rw [hdec] at h
  case none => simp at h
  case some v =>
    obtain ⟨n, r⟩ := v
    simp only [] at h
    split_ifs at h
    simp only [Option.some.injEq, StrTok.ch.injEq] at h
    obtain ⟨rfl, rfl⟩ := h
    have := utf8DecodeChar_length hdec
    simpa using this

theorem parseStringTok_length {l : List Nat} {c : Char} {rest : List Nat}
    (h : parseStringTok l = some (.ch c rest)) : rest.length < l.length := by
  match l with
  | [] => simp [parseStringTok] at h
  | b :: tail =>
    unfold parseStringTok at h
    simp only [] at h
    split_ifs at h with h1 h2 h3 h4
    · simp at h
    · rcases tail with _ | ⟨e, r⟩
      · simp at h
      · simp only [] at h
        have := decodeEscape_length h
        simp only [List.length_cons]
        omega
    · simp only [Option.some.injEq, StrTok.ch.injEq] at h
      obtain ⟨h5, rfl⟩ := h
      simp
    · have := decodeUtf8Tok_length h
      simpa using this

/-- Byte-level model of how Go's `encoding/json` reads a whole JSON string
value (the part after the opening quote), up to and including the closing
quote: the decoded characters and the bytes after the closing quote. -/
def parseStringBody (l : List Nat) : Option (List Char × List Nat) :=
  match htok : parseStringTok l with
  | some (.done rest) => some ([], rest)
  | some (.ch c rest) => (parseStringBody rest).map (fun p => (c :: p.1, p.2))
  | none => none
termination_by l.length
decreasing_by exact parseStringTok_length htok

theorem utf8Bytes_cons (c : Char) (s : List Char) :
    utf8Bytes (c :: s) = utf8EncodeChar c ++ utf8Bytes s := by
  simp [utf8Bytes]

theorem utf8Bytes_append (a b : List Char) :
    utf8Bytes (a ++ b) = utf8Bytes a ++ utf8Bytes b := by
  simp [utf8Bytes]

theorem hexVal_hexDigitChar (n : Nat) (h : n < 16) :
    hexVal ((hexDigitChar n).toNat) = some n := by
  interval_cases n <;> decide

theorem hexDigitChar_ascii (n : Nat) (h : n < 16) :
    (hexDigitChar n).toNat < 0x80 := by
  interval_cases n <;> decide

theorem utf8EncodeChar_ascii (c : Char) (h : c.toNat < 0x80) :
    utf8EncodeChar c = [c.toNat] := by
  unfold utf8EncodeChar
  rw [if_pos h]

theorem char_toNat_valid (c : Char) : c.toNat.isValidChar := by
  rcases c.valid with h | h
  · exact Or.inl (by simp only [Char.toNat]; omega)
  · exact Or.inr ⟨by simp only [Char.toNat]; omega, by simp only [Char.toNat]; omega⟩

theorem char_toNat_lt (c : Char) : c.toNat < 0x110000 := by
  rcases c.valid with h | h
  · simp only [Char.toNat]; omega
  · simp only [Char.toNat]; omega

theorem parseStringTok_utf8 (c : Char) (r : List Nat) (h : 0x80 ≤ c.toNat) :
    parseStringTok (utf8EncodeChar c ++ r) = some (.ch c r) := by
  have hdec := utf8DecodeChar_encode c r
  have hvalid := char_toNat_valid c
  have hlt := char_toNat_lt c
  unfold utf8EncodeChar at hdec ⊢
  split_ifs with h1 h2 h3
  · omega
  · rw [if_neg h1, if_pos h2] at hdec
    simp only [List.cons_append, List.nil_append] at hdec ⊢
    unfold parseStringTok
    simp only []
    rw [if_neg (by omega), if_neg (by omega), if_neg (by omega), if_neg (by omega)]
    unfold decodeUtf8Tok
    rw [hdec]
    simp only []
    rw [if_pos hvalid, Char.ofNat_toNat]
  · rw [if_neg h1, if_neg h2, if_pos h3] at hdec
    simp only [List.cons_append, List.nil_append] at hdec ⊢
    unfold parseStringTok
    simp only []
    rw [if_neg (by omega), if_neg (by omega), if_neg (by omega), if_neg (by omega)]
    unfold decodeUtf8Tok
    rw [hdec]
    simp only []
    rw [if_pos hvalid, Char.ofNat_toNat]
  · rw [if_neg h1, if_neg h2, if_neg h3] at hdec
    simp only [List.cons_append, List.nil_append] at hdec ⊢
    unfold parseStringTok
    simp only []
    rw [if_neg (by omega), if_neg (by omega), if_neg (by omega), if_neg (by omega)]
    unfold decodeUtf8Tok
    rw [hdec]
    simp only []
    rw [if_pos hvalid, Char.ofNat_toNat]

example (r : List Nat) :
    parseStringTok (utf8Bytes (escapeChar '"') ++ r) = some (.ch '"' r) := by
  have h1 : utf8Bytes (escapeChar '"') = [0x5C, 0x22] := by decide
  rw [h1]
  simp only [List.cons_append, List.nil_append]
  norm_num [parseStringTok, decodeEscape]

theorem parseStringTok_escapeChar (c : Char) (r : List Nat) :
    parseStringTok (utf8Bytes (escapeChar c) ++ r) = some (.ch c r) := by
  by_cases hq : c = '"'
  · subst hq
    have h1 : utf8Bytes (escapeChar '"') = [0x5C, 0x22] := by decide
    rw [h1]
    simp only [List.cons_append, List.nil_append]
    norm_num [parseStringTok, decodeEscape]
  by_cases hb : c = '\\'
  · subst hb
    have h1 : utf8Bytes (escapeChar '\\') = [0x5C, 0x5C] := by decide
    rw [h1]
    simp only [List.cons_append, List.nil_append]
    norm_num [parseStringTok, decodeEscape]
  by_cases hn : c = '\n'
  · subst hn
    have h1 : utf8Bytes (escapeChar '\n') = [0x5C, 0x6E] := by decide
    rw [h1]
    simp only [List.cons_append, List.nil_append]
    norm_num [parseStringTok, decodeEscape]
  by_cases hr : c = '\r'
  · subst hr
    have h1 : utf8Bytes (escapeChar '\r') = [0x5C, 0x72] := by decide
    rw [h1]
    simp only [List.cons_append, List.nil_append]
    norm_num [parseStringTok, decodeEscape]
  by_cases ht : c = '\t'
  · subst ht
    have h1 : utf8Bytes (escapeChar '\t') = [0x5C, 0x74] := by decide
    rw [h1]
    simp only [List.cons_append, List.nil_append]
    norm_num [parseStringTok, decodeEscape]
  by_cases hc : c.toNat < 0x20
  · have hesc : escapeChar c =
        ['\\', 'u', '0', '0', hexDigitChar (c.toNat / 16), hexDigitChar (c.toNat % 16)] := by
      unfold escapeChar
      rw [if_neg hq, if_neg hb, if_neg hn, if_neg hr, if_neg ht, if_pos hc]
    rw [hesc]
    have hdiv : c.toNat / 16 < 16 := by omega
    have hmod : c.toNat % 16 < 16 := by omega
    have hbytes : utf8Bytes ['\\', 'u', '0', '0', hexDigitChar (c.toNat / 16),
        hexDigitChar (c.toNat % 16)] =
        [0x5C, 0x75, 0x30, 0x30, (hexDigitChar (c.toNat / 16)).toNat,
          (hexDigitChar (c.toNat % 16)).toNat] := by
      simp [utf8Bytes, utf8EncodeChar_ascii, hexDigitChar_ascii, hdiv, hmod]
    rw [hbytes]
    simp only [List.cons_append, List.nil_append]
    unfold parseStringTok decodeEscape decodeUEscape
    norm_num
    rw [hexVal_hexDigitChar _ hdiv, hexVal_hexDigitChar _ hmod]
    norm_num [hexVal]
    have hval : c.toNat / 16 * 16 + c.toNat % 16 = c.toNat := by omega
    rw [hval]
    exact ⟨char_toNat_valid c, Char.ofNat_toNat c⟩
  by_cases hlt : c = '<'
  · subst hlt
    have h1 : utf8Bytes (escapeChar '<') = [0x5C, 0x75, 0x30, 0x30, 0x33, 0x63] := by decide
    rw [h1]
    simp only [List.cons_append, List.nil_append]
    norm_num [parseStringTok, decodeEscape, decodeUEscape, hexVal]
  by_cases hgt : c = '>'
  · subst hgt
    have h1 : utf8Bytes (escapeChar '>') = [0x5C, 0x75, 0x30, 0x30, 0x33, 0x65] := by decide
    rw [h1]
    simp only [List.cons_append, List.nil_append]
    norm_num [parseStringTok, decodeEscape, decodeUEscape, hexVal]
  by_cases hamp : c = '&'
  · subst hamp
    have h1 : utf8Bytes (escapeChar '&') = [0x5C, 0x75, 0x30, 0x30, 0x32, 0x36] := by decide
    rw [h1]
    simp only [List.cons_append, List.nil_append]
    norm_num [parseStringTok, decodeEscape, decodeUEscape, hexVal]
  by_cases h28 : c.toNat = 0x2028
  · have hesc : escapeChar c = ['\\', 'u', '2', '0', '2', '8'] := by
      unfold escapeChar
      rw [if_neg hq, if_neg hb, if_neg hn, if_neg hr, if_neg ht, if_neg hc,
        if_neg hlt, if_neg hgt, if_neg hamp, if_pos h28]
    rw [hesc]
    have h1 : utf8Bytes ['\\', 'u', '2', '0', '2', '8'] =
        [0x5C, 0x75, 0x32, 0x30, 0x32, 0x38] := by decide
    rw [h1]
    simp only [List.cons_append, List.nil_append]
    norm_num [parseStringTok, decodeEscape, decodeUEscape, hexVal]
    refine ⟨by decide, ?_⟩
    rw [← h28, Char.ofNat_toNat]
  by_cases h29 : c.toNat = 0x2029
  · have hesc : escapeChar c = ['\\', 'u', '2', '0', '2', '9'] := by
      unfold escapeChar
      rw [if_neg hq, if_neg hb, if_neg hn, if_neg hr, if_neg ht, if_neg hc,
        if_neg hlt, if_neg hgt, if_neg hamp, if_neg h28, if_pos h29]
    rw [hesc]
    have h1 : utf8Bytes ['\\', 'u', '2', '0', '2', '9'] =
        [0x5C, 0x75, 0x32, 0x30, 0x32, 0x39] := by decide
    rw [h1]
    simp only [List.cons_append, List.nil_append]
    norm_num [parseStringTok, decodeEscape, decodeUEscape, hexVal]
    refine ⟨by decide, ?_⟩
    rw [← h29, Char.ofNat_toNat]
  -- literal character
  have hesc : escapeChar c = [c] := by
    unfold escapeChar
    rw [if_neg hq, if_neg hb, if_neg hn, if_neg hr, if_neg ht, if_neg hc,
      if_neg hlt, if_neg hgt, if_neg hamp, if_neg h28, if_neg h29]
  rw [hesc]
  by_cases hascii : c.toNat < 0x80
  · have hne34 : c.toNat ≠ 0x22 := by
      intro he
      exact hq (by rw [← Char.ofNat_toNat c, he])
    have hne92 : c.toNat ≠ 0x5C := by
      intro he
      exact hb (by rw [← Char.ofNat_toNat c, he])
    rw [utf8Bytes_cons, utf8EncodeChar_ascii c hascii]
    simp only [utf8Bytes, List.map_nil, List.flatten_nil, List.append_nil,
      List.cons_append, List.nil_append]
    unfold parseStringTok
    simp only []
    rw [if_neg hne34, if_neg hne92, if_neg (by omega), if_pos hascii,
      Char.ofNat_toNat]
  · rw [utf8Bytes_cons]
    simp only [utf8Bytes, List.map_nil, List.flatten_nil, List.append_nil]
    exact parseStringTok_utf8 c r (by omega)

theorem parseStringTok_quote (r : List Nat) :
    parseStringTok (0x22 :: r) = some (.done r) := by
  norm_num [parseStringTok]

theorem parseStringBody_escString (s : List Char) (r : List Nat) :
    parseStringBody (utf8Bytes (escapeString s) ++ (0x22 :: r)) = some (s, r) := by
  induction s generalizing r with
  | nil =>
    rw [show escapeString [] = [] from rfl]
    rw [show utf8Bytes [] = [] from rfl, List.nil_append]
    rw [parseStringBody.eq_def]
    split
    · rename_i rest heq
      rw [parseStringTok_quote] at heq
      simp only [Option.some.injEq, StrTok.done.injEq] at heq
      subst heq
      rfl
    · rename_i c rest heq
      rw [parseStringTok_quote] at heq
      simp at heq
    · rename_i heq
      rw [parseStringTok_quote] at heq
      simp at heq
  | cons c s ih =>
    have hsplit : escapeString (c :: s) = escapeChar c ++ escapeString s := by
      simp [escapeString]
    rw [hsplit, utf8Bytes_append, List.append_assoc]
    rw [parseStringBody.eq_def]
    split
    · rename_i rest heq
      rw [parseStringTok_escapeChar] at heq
      simp at heq
    · rename_i c' rest heq
      rw [parseStringTok_escapeChar] at heq
      simp only [Option.some.injEq, StrTok.ch.injEq] at heq
      obtain ⟨rfl, rfl⟩ := heq
      rw [ih r]
      rfl
    · rename_i heq
      rw [parseStringTok_escapeChar] at heq
      simp at heq

/-- Consume an exact byte prefix, returning the remainder. -/
def stripBytes : List Nat → List Nat → Option (List Nat)
  | [], l => some l
  | _ :: _, [] => none
  | a :: p, b :: l => if a = b then stripBytes p l else none

/-- Byte-level model of `json.Unmarshal` into a `StreamHeader`, restricted
to the canonical object layout the marshaller emits
(`\x7b"type":"…","target":"…"\x7d`, no extra whitespace, fields in
declaration order) — the only layout the round-trip exercises. -/
def unmarshalHeader (body : List Nat) : Option StreamHeader :=
  match stripBytes (strBytes "\x7b\"type\":\"") body with
  | none => none
  | some r1 =>
    match parseStringBody r1 with
    | none => none
    | some (ty, r2) =>
      match stripBytes (strBytes ",\"target\":\"") r2 with
      | none => none
      | some r3 =>
        match parseStringBody r3 with
        | none => none
        | some (tg, r4) =>
          if r4 = [0x7D] then some ⟨String.mk ty, String.mk tg⟩ else none

theorem stripBytes_append (p r : List Nat) : stripBytes p (p ++ r) = some r := by
  induction p with
  | nil => rfl
  | cons a p ih => simp [stripBytes, ih]

theorem unmarshalHeader_marshalHeader (h : StreamHeader) :
    unmarshalHeader (marshalHeader h) = some h := by
  rcases h with ⟨⟨tl⟩, ⟨gl⟩⟩
  unfold marshalHeader unmarshalHeader
  simp only []
  have hP2 : strBytes "\",\"target\":\"" = 0x22 :: strBytes ",\"target\":\"" := by decide
  have hP3 : strBytes "\"\x7d" = 0x22 :: [0x7D] := by decide
  rw [hP2, hP3]
  rw [List.append_assoc, List.append_assoc, List.append_assoc]
  rw [stripBytes_append]
  simp only []
  rw [List.cons_append]
  rw [parseStringBody_escString]
  simp only []
  rw [stripBytes_append]
  simp only []
  rw [parseStringBody_escString]
  simp

/-! ## The stream framing

`StreamManager.OpenStream` (mux.go) writes, before any user payload:
2 bytes of big-endian body length (`buf[0] = len >> 8`, `buf[1] = len & 0xFF`),
the JSON body, and one `'\n'` byte; a body over 0xFFFF bytes is refused
before anything is written.  `StreamManager.handleStream` reads the 2-byte
length, rejects a zero (or, unreachably, over-0xFFFF) length, reads
`len + 1` bytes, and rejects a missing trailing newline. -/

/-- The bytes `StreamManager.OpenStream` writes on a fresh stream for a
JSON body: length-prefixed and newline-terminated, or `none` for the
"header too large" error. -/
def encodeFrame (body : List Nat) : Option (List Nat) :=
  if body.length > 0xFFFF then none
  else some ([body.length / 256, body.length % 256] ++ body ++ [0x0A])

/-- How `StreamManager.handleStream` reads a framed header from the front
of a stream: the body and the remaining (user payload) bytes, or `none`
for a short read, a zero length, or a byte other than `'\n'` after the
body. -/
def decodeFrame (bytes : List Nat) : Option (List Nat × List Nat) :=
  match bytes with
  | b0 :: b1 :: rest =>
    if b0 * 256 + b1 = 0 ∨ b0 * 256 + b1 > 0xFFFF then none
    else if rest.length < b0 * 256 + b1 + 1 then none
    else if rest[b0 * 256 + b1]? = some 0x0A then
      some (rest.take (b0 * 256 + b1), rest.drop (b0 * 256 + b1 + 1))
    else none
  | _ => none

/-- The whole header a stream carries: `json.Marshal` then the frame. -/
def encodeHeader (h : StreamHeader) : Option (List Nat) :=
  encodeFrame (marshalHeader h)

/-- The whole header read: the frame, then `json.Unmarshal` of the body. -/
def decodeHeader (bytes : List Nat) : Option (StreamHeader × List Nat) :=
  match decodeFrame bytes with
  | none => none
  | some (body, rest) =>
    match unmarshalHeader body with
    | none => none
    | some hd => some (hd, rest)

theorem decodeFrame_encodeFrame (body frame extra : List Nat)
    (h1 : 1 ≤ body.length) (h2 : body.length ≤ 0xFFFF)
    (henc : encodeFrame body = some frame) :
    decodeFrame (frame ++ extra) = some (body, extra) := by
  unfold encodeFrame at henc
  rw [if_neg (by omega)] at henc
  simp only [Option.some.injEq] at henc
  subst henc
  unfold decodeFrame
  simp only [List.cons_append, List.nil_append, List.append_assoc]
  rw [if_neg (by omega)]
  have hL : body.length / 256 * 256 + body.length % 256 = body.length := by omega
  rw [hL]
  have hlist : body ++ ([0x0A] ++ extra) = body ++ 0x0A :: extra := by simp
  have hlen : (body ++ 0x0A :: extra).length = body.length + 1 + extra.length := by
    simp
    omega
  rw [if_neg (by rw [hlen]; omega)]
  have hget : (body ++ 0x0A :: extra)[body.length]? = some 0x0A := by
    rw [List.getElem?_append_right (by omega)]
    simp
  rw [if_pos hget]
  have htake : (body ++ 0x0A :: extra).take body.length = body := List.take_left body _
  have hdrop : (body ++ 0x0A :: extra).drop (body.length + 1) = extra := by
    rw [show body ++ 0x0A :: extra = (body ++ [0x0A]) ++ extra by simp]
    rw [show body.length + 1 = (body ++ [0x0A]).length by simp]
    exact List.drop_left _ _
  rw [htake, hdrop]

theorem encodeFrame_too_long (body : List Nat) (h : body.length > 0xFFFF) :
    encodeFrame body = none := by
  unfold encodeFrame
  rw [if_pos h]

theorem decodeFrame_zero_length (rest : List Nat) :
    decodeFrame (0 :: 0 :: rest) = none := by
  unfold decodeFrame
  norm_num

theorem decodeFrame_bad_newline (body : List Nat) (x : Nat) (extra : List Nat)
    (h1 : 1 ≤ body.length) (h2 : body.length ≤ 0xFFFF) (hx : x ≠ 0x0A) :
    decodeFrame (body.length / 256 :: body.length % 256 :: (body ++ x :: extra)) = none := by
  unfold decodeFrame
  simp only []
  rw [if_neg (by omega)]
  have hL : body.length / 256 * 256 + body.length % 256 = body.length := by omega
  rw [hL]
  have hlen : (body ++ x :: extra).length = body.length + 1 + extra.length := by
    simp
    omega
  rw [if_neg (by rw [hlen]; omega)]
  have hget : (body ++ x :: extra)[body.length]? = some x := by
    rw [List.getElem?_append_right (by omega)]
    simp
  rw [if_neg (by rw [hget]; simp [hx])]

theorem marshalHeader_length_pos (h : StreamHeader) : 1 ≤ (marshalHeader h).length := by
  unfold marshalHeader
  rw [List.length_append, List.length_append, List.length_append, List.length_append]
  have h9 : (strBytes "\x7b\"type\":\"").length = 9 := by decide
  omega

theorem decodeHeader_encodeHeader (h : StreamHeader) (enc extra : List Nat)
    (hlen : (marshalHeader h).length ≤ 0xFFFF)
    (henc : encodeHeader h = some enc) :
    decodeHeader (enc ++ extra) = some (h, extra) := by
  unfold encodeHeader at henc
  unfold decodeHeader
  rw [decodeFrame_encodeFrame (marshalHeader h) enc extra (marshalHeader_length_pos h)
    hlen henc]
  simp only []
  rw [unmarshalHeader_marshalHeader]

theorem encodeHeader_some (h : StreamHeader) (hlen : (marshalHeader h).length ≤ 0xFFFF) :
    ∃ enc, encodeHeader h = some enc := by
  unfold encodeHeader encodeFrame
  rw [if_neg (by omega)]
  exact ⟨_, rfl⟩

/-- C5: for every valid stream header, encoding it (2-byte big-endian length
`L`, `L`-byte JSON body, one trailing newline byte) and then decoding
recovers the same `\x7btype, target\x7d`; boundary body lengths `L = 1` and
`L = 65535` both round-trip; a body of length 0 and a body of length 65536
are rejected; a header whose byte after the JSON body is not a newline is
rejected. -/
theorem C5_streamHeader_roundtrip :
    (∀ h : StreamHeader, (marshalHeader h).length ≤ 65535 →
      ∃ enc, encodeHeader h = some enc ∧ decodeHeader enc = some (h, [])) ∧
    (∀ body : List Nat, 1 ≤ body.length → body.length ≤ 65535 →
      ∃ frame, encodeFrame body = some frame ∧ decodeFrame frame = some (body, [])) ∧
    (∀ body : List Nat, body.length = 65536 → encodeFrame body = none) ∧
    (∀ rest : List Nat, decodeFrame (0 :: 0 :: rest) = none) ∧
    (∀ (body : List Nat) (x : Nat) (extra : List Nat), 1 ≤ body.length →
      body.length ≤ 65535 → x ≠ 0x0A →
      decodeFrame (body.length / 256 :: body.length % 256 :: (body ++ x :: extra)) =
        none) := by
  refine ⟨?_, ?_, ?_, ?_, ?_⟩
  · intro h hlen
    obtain ⟨enc, henc⟩ := encodeHeader_some h hlen
    refine ⟨enc, henc, ?_⟩
    have hrt := decodeHeader_encodeHeader h enc [] hlen henc
    simpa using hrt
  · intro body hb1 hb2
    have henc : encodeFrame body =
        some ([body.length / 256, body.length % 256] ++ body ++ [0x0A]) := by
      unfold encodeFrame
      rw [if_neg (by omega)]
    refine ⟨_, henc, ?_⟩
    have hrt := decodeFrame_encodeFrame body _ [] hb1 hb2 henc
    simpa using hrt
  · intro body hlen
    exact encodeFrame_too_long body (by omega)
  · exact decodeFrame_zero_length
  · exact decodeFrame_bad_newline

theorem C5_streamHeader_roundtrip_witness :
    (∃ enc, encodeHeader ⟨"http", "127.0.0.1:9000"⟩ = some enc ∧
      decodeHeader enc = some (⟨"http", "127.0.0.1:9000"⟩, [])) ∧
    (∃ frame, encodeFrame [0x41] = some frame ∧ decodeFrame frame = some ([0x41], [])) ∧
    (∃ frame, encodeFrame (List.replicate 65535 0x41) = some frame ∧
      decodeFrame frame = some (List.replicate 65535 0x41, [])) ∧
    encodeFrame (List.replicate 65536 0x41) = none ∧
    decodeFrame [0, 0] = none ∧
    decodeFrame [0, 1, 0x41, 0x58] = none := by
  refine ⟨?_, ?_, ?_, ?_, ?_, ?_⟩
  · exact C5_streamHeader_roundtrip.1 ⟨"http", "127.0.0.1:9000"⟩ (by decide)
  · exact C5_streamHeader_roundtrip.2.1 [0x41] (by decide) (by decide)
  · exact C5_streamHeader_roundtrip.2.1 (List.replicate 65535 0x41)
      (by rw [List.length_replicate]; omega) (by rw [List.length_replicate])
  · exact C5_streamHeader_roundtrip.2.2.1 (List.replicate 65536 0x41)
      (by rw [List.length_replicate])
  · exact C5_streamHeader_roundtrip.2.2.2.1 []
  · have hbad := C5_streamHeader_roundtrip.2.2.2.2 [0x41] 0x58 []
      (by decide) (by decide) (by decide)
    simpa using hbad

/-! ## The tunnel registry (internal/server/tunnel.go)

`TunnelManager` holds `connections map[string]*tunnel.Connection` guarded
by a mutex.  The map is embedded as an association list whose keys stay
pairwise distinct (a Go map cannot hold two entries for one key);
connections are named by numeric identifiers, and a connection's
`closed` flag (set by `Connection.Close`, which is idempotent) is the
membership of its identifier in `closed`.  Check rows appended through
`Store.CreateCheck` are collected in order in `checks`. -/

/-- An uptime check row (`models.Check`): the tunnel, the status
("up" or "down"), an optional latency and an optional error text. -/
structure Check where
  tunnelID : String
  status : String
  latencyMs : Option Nat
  error : Option String
deriving DecidableEq, Repr

/-- The registry state of `TunnelManager` plus the check ledger. -/
structure RegState where
  connections : List (String × Nat)
  closed : List Nat
  checks : List Check
deriving DecidableEq, Repr

/-- Go map read `tm.connections[tunnelID]`. -/
def lookupConn : List (String × Nat) → String → Option Nat
  | [], _ => none
  | (k, v) :: rest, tid => if k = tid then some v else lookupConn rest tid

/-- Go map write `tm.connections[tunnelID] = conn` (replaces any binding). -/
def mapInsert (l : List (String × Nat)) (tid : String) (c : Nat) : List (String × Nat) :=
  (tid, c) :: l.filter (fun p => p.1 ≠ tid)

/-- Go map delete `delete(tm.connections, tunnelID)`. -/
def mapErase (l : List (String × Nat)) (tid : String) : List (String × Nat) :=
  l.filter (fun p => p.1 ≠ tid)

/-- `TunnelManager.registerConnection` (tunnel.go 121-133): under the lock,
close any existing connection for this tunnelID, then store the new one.
No check row is written here. -/
def registerConnection (s : RegState) (tid : String) (c : Nat) : RegState :=
  let s1 :=
    match lookupConn s.connections tid with
    | some old => { s with closed := old :: s.closed }
    | none => s
  { s1 with connections := mapInsert s1.connections tid c }

/-- `TunnelManager.unregisterConnection` (tunnel.go 136-152): under the
lock, delete the map entry for this tunnelID — whatever it currently holds —
and record a `down` check. -/
def unregisterConnection (s : RegState) (tid : String) : RegState :=
  { s with connections := mapErase s.connections tid,
           checks := s.checks ++ [⟨tid, "down", none, none⟩] }

/-- The `up` check `HandleWebSocket` records (tunnel.go 106-114) right
after registering a new connection. -/
def recordUpCheck (s : RegState) (tid : String) : RegState :=
  { s with checks := s.checks ++ [⟨tid, "up", none, none⟩] }

/-- `Connection.Close` as seen by the registry: the connection's closed
flag is set (idempotently). -/
def closeConn (s : RegState) (c : Nat) : RegState :=
  { s with closed := c :: s.closed }

/-- `TunnelManager.GetConnection` (tunnel.go 230-237): the map entry, but
only when it exists and is not closed. -/
def GetConnection (s : RegState) (tid : String) : Option Nat :=
  match lookupConn s.connections tid with
  | some c => if c ∈ s.closed then none else some c
  | none => none

/-- `TunnelManager.IsConnected` (tunnel.go 239-243). -/
def IsConnected (s : RegState) (tid : String) : Bool :=
  (GetConnection s tid).isSome

/-- The registry operations as a step relation: everything the Go code does
to the registry state (registration, the deferred unregistration, up/down
check rows from the handshake, the control reader and the health checker,
and closing a connection). -/
inductive RegStep : RegState → RegState → Prop where
  | register (tid : String) (c : Nat) (s : RegState) :
      RegStep s (registerConnection s tid c)
  | unregister (tid : String) (s : RegState) :
      RegStep s (unregisterConnection s tid)
  | upCheck (tid : String) (s : RegState) :
      RegStep s (recordUpCheck s tid)
  | close (c : Nat) (s : RegState) :
      RegStep s (closeConn s c)
  | anyCheck (row : Check) (s : RegState) :
      RegStep s { s with checks := s.checks ++ [row] }

/-- The registry starts empty (`NewTunnelManager`). -/
def initialRegState : RegState := ⟨[], [], []⟩

/-- States the registry can reach from start-up. -/
def ReachableReg (s : RegState) : Prop :=
  Relation.ReflTransGen RegStep initialRegState s

/-- The connection-map keys of a state are pairwise distinct. -/
def KeysNodup (s : RegState) : Prop :=
  (s.connections.map Prod.fst).Nodup

/-- The map entries for `tid` whose connection is not closed. -/
def liveLinks (s : RegState) (tid : String) : List (String × Nat) :=
  s.connections.filter (fun p => p.1 == tid && !(s.closed.contains p.2))

theorem filter_key_nil {l : List (String × Nat)} {tid : String}
    (h : tid ∉ l.map Prod.fst) : l.filter (fun p => p.1 == tid) = [] := by
  induction l with
  | nil => rfl
  | cons p rest ih =>
    simp only [List.map_cons, List.mem_cons] at h
    push_neg at h
    rw [List.filter_cons]
    rw [if_neg (by simpa using fun he => h.1 he.symm)]
    exact ih h.2

theorem filter_key_length {l : List (String × Nat)} (h : (l.map Prod.fst).Nodup)
    (tid : String) : (l.filter (fun p => p.1 == tid)).length ≤ 1 := by
  induction l with
  | nil => simp
  | cons p rest ih =>
    simp only [List.map_cons, List.nodup_cons] at h
    rw [List.filter_cons]
    by_cases hk : p.1 = tid
    · rw [if_pos (by simpa using hk)]
      subst hk
      rw [filter_key_nil h.1]
      simp
    · rw [if_neg (by simpa using hk)]
      exact ih h.2

theorem liveLinks_length_le {s : RegState} (h : KeysNodup s) (tid : String) :
    (liveLinks s tid).length ≤ 1 := by
  unfold liveLinks
  have hsplit : s.connections.filter (fun p => p.1 == tid && !(s.closed.contains p.2)) =
      (s.connections.filter (fun p => p.1 == tid)).filter
        (fun p => !(s.closed.contains p.2)) := by
    rw [List.filter_filter]
    congr 1
    funext p
    rw [Bool.and_comm]
  rw [hsplit]
  calc ((s.connections.filter (fun p => p.1 == tid)).filter
          (fun p => !(s.closed.contains p.2))).length
      ≤ (s.connections.filter (fun p => p.1 == tid)).length :=
        List.length_filter_le _ _
    _ ≤ 1 := filter_key_length h tid

theorem keysNodup_mapInsert {l : List (String × Nat)} (h : (l.map Prod.fst).Nodup)
    (tid : String) (c : Nat) : ((mapInsert l tid c).map Prod.fst).Nodup := by
  unfold mapInsert
  simp only [List.map_cons, List.nodup_cons]
  constructor
  · intro hmem
    obtain ⟨p, hp, hfst⟩ := List.mem_map.mp hmem
    have := List.of_mem_filter hp
    simp at this
    exact this hfst
  · exact List.Nodup.sublist (List.Sublist.map _ (List.filter_sublist l)) h

theorem registerConnection_connections (s : RegState) (tid : String) (c : Nat) :
    (registerConnection s tid c).connections = mapInsert s.connections tid c := by
  unfold registerConnection
  cases lookupConn s.connections tid <;> rfl

theorem registerConnection_closed (s : RegState) (tid : String) (c : Nat) (old : Nat)
    (hlook : lookupConn s.connections tid = some old) :
    (registerConnection s tid c).closed = old :: s.closed := by
  unfold registerConnection
  rw [hlook]

theorem reachable_keysNodup {s : RegState} (h : ReachableReg s) : KeysNodup s := by
  unfold ReachableReg at h
  induction h with
  | refl => simp [KeysNodup, initialRegState]
  | tail _ step ih =>
    cases step with
    | register tid c s =>
      unfold KeysNodup
      rw [registerConnection_connections]
      exact keysNodup_mapInsert ih tid c
    | unregister tid s =>
      unfold unregisterConnection mapErase KeysNodup
      exact List.Nodup.sublist (List.Sublist.map _ (List.filter_sublist _)) ih
    | upCheck tid s => exact ih
    | close c s => exact ih
    | anyCheck row s => exact ih

/-- C4: at every reachable registry state, for every tunnelID, the
connection map holds at most one non-closed connection bound to it; and
registering a connection under a tunnelID closes the previously registered
one (when there is one) before inserting the new one. -/
theorem C4_at_most_one_live :
    (∀ s, ReachableReg s → ∀ tid, (liveLinks s tid).length ≤ 1) ∧
    (∀ s tid c old, lookupConn s.connections tid = some old →
      (registerConnection s tid c).closed = old :: s.closed ∧
      lookupConn (registerConnection s tid c).connections tid = some c) := by
  constructor
  · intro s hreach tid
    exact liveLinks_length_le (reachable_keysNodup hreach) tid
  · intro s tid c old hlook
    constructor
    · exact registerConnection_closed s tid c old hlook
    · rw [registerConnection_connections]
      simp [mapInsert, lookupConn]

theorem C4_at_most_one_live_witness :
    (liveLinks (registerConnection initialRegState "t1" 1) "t1").length ≤ 1 ∧
    ((registerConnection ⟨[("t1", 1)], [], []⟩ "t1" 2).closed = [1] ∧
      lookupConn (registerConnection ⟨[("t1", 1)], [], []⟩ "t1" 2).connections "t1" =
        some 2) := by
  constructor
  · exact C4_at_most_one_live.1 _
      (Relation.ReflTransGen.single (RegStep.register "t1" 1 initialRegState)) "t1"
  · exact C4_at_most_one_live.2 ⟨[("t1", 1)], [], []⟩ "t1" 2 1 (by decide)

theorem lookupConn_mapErase (l : List (String × Nat)) (tid : String) :
    lookupConn (mapErase l tid) tid = none := by
  induction l with
  | nil => rfl
  | cons p rest ih =>
    unfold mapErase at ih ⊢
    rw [List.filter_cons]
    by_cases hk : p.1 = tid
    · rw [if_neg (by simpa using hk)]
      exact ih
    · rw [if_pos (by simpa using hk)]
      unfold lookupConn
      rw [if_neg hk]
      exact ih

theorem lookupConn_mapInsert (l : List (String × Nat)) (tid : String) (c : Nat) :
    lookupConn (mapInsert l tid c) tid = some c := by
  simp [mapInsert, lookupConn]

theorem registerConnection_checks (s : RegState) (tid : String) (c : Nat) :
    (registerConnection s tid c).checks = s.checks := by
  unfold registerConnection
  cases lookupConn s.connections tid <;> rfl

/-- C3 as frozen is false on the code: after a displacement the two check
rows for the tunnel appear as `up` (recorded by the new handler right after
registration) and then `down` (recorded by the displaced handler's deferred
exit), not `down` then `up`.  Ledger from an empty registry: first agent
registers and records `up`; the second agent displaces, records `up`; the
displaced handler then exits.  The two rows appended from the displacement
on are `["up", "down"]`, not `["down", "up"]`. -/
theorem C3_displacement_counterexample :
    ((unregisterConnection (recordUpCheck (registerConnection
        (recordUpCheck (registerConnection initialRegState "t1" 1) "t1") "t1" 2) "t1")
        "t1").checks.drop 1).map Check.status = ["up", "down"] ∧
    ¬ ((unregisterConnection (recordUpCheck (registerConnection
        (recordUpCheck (registerConnection initialRegState "t1" 1) "t1") "t1" 2) "t1")
        "t1").checks.drop 1).map Check.status = ["down", "up"] := by
  constructor
  · rfl
  · decide

/-- C3 amended: when a second agent completes the handshake for a tunnel
that already has a live registered connection, the displaced connection is
closed and exactly the newer one is live and registered immediately after
the displacement; two check rows are then appended for the tunnel, in this
order: first the `up` check recorded by the new handshake, then the `down`
check recorded when the displaced handler's deferred unregistration runs —
which also removes the still-non-closed newer connection from the
registry. -/
theorem C3_displacement (s0 : RegState) (tid : String) (c1 c2 : Nat)
    (hreg : lookupConn s0.connections tid = some c1)
    (hc2 : c2 ∉ s0.closed) (hne : c1 ≠ c2) :
    c1 ∈ (registerConnection s0 tid c2).closed ∧
    lookupConn (registerConnection s0 tid c2).connections tid = some c2 ∧
    c2 ∉ (registerConnection s0 tid c2).closed ∧
    (unregisterConnection (recordUpCheck (registerConnection s0 tid c2) tid) tid).checks =
      s0.checks ++ [⟨tid, "up", none, none⟩, ⟨tid, "down", none, none⟩] ∧
    c2 ∉ (unregisterConnection (recordUpCheck (registerConnection s0 tid c2) tid)
      tid).closed ∧
    lookupConn (unregisterConnection (recordUpCheck (registerConnection s0 tid c2) tid)
      tid).connections tid = none := by
  have hclosed := registerConnection_closed s0 tid c2 c1 hreg
  refine ⟨?_, ?_, ?_, ?_, ?_, ?_⟩
  · rw [hclosed]
    exact List.mem_cons_self c1 _
  · rw [registerConnection_connections]
    exact lookupConn_mapInsert _ _ _
  · rw [hclosed]
    intro hmem
    rcases List.mem_cons.mp hmem with h | h
    · exact hne h.symm
    · exact hc2 h
  · unfold unregisterConnection recordUpCheck
    rw [registerConnection_checks]
    simp
  · unfold unregisterConnection recordUpCheck
    simp only []
    rw [hclosed]
    intro hmem
    rcases List.mem_cons.mp hmem with h | h
    · exact hne h.symm
    · exact hc2 h
  · unfold unregisterConnection recordUpCheck
    simp only []
    exact lookupConn_mapErase _ _

theorem C3_displacement_witness :
    1 ∈ (registerConnection ⟨[("t1", 1)], [], []⟩ "t1" 2).closed ∧
    lookupConn (registerConnection ⟨[("t1", 1)], [], []⟩ "t1" 2).connections "t1" =
      some 2 ∧
    2 ∉ (registerConnection ⟨[("t1", 1)], [], []⟩ "t1" 2).closed ∧
    (unregisterConnection (recordUpCheck
      (registerConnection ⟨[("t1", 1)], [], []⟩ "t1" 2) "t1") "t1").checks =
      [] ++ [⟨"t1", "up", none, none⟩, ⟨"t1", "down", none, none⟩] ∧
    2 ∉ (unregisterConnection (recordUpCheck
      (registerConnection ⟨[("t1", 1)], [], []⟩ "t1" 2) "t1") "t1").closed ∧
    lookupConn (unregisterConnection (recordUpCheck
      (registerConnection ⟨[("t1", 1)], [], []⟩ "t1" 2) "t1") "t1").connections "t1" =
      none := by
  exact C3_displacement ⟨[("t1", 1)], [], []⟩ "t1" 1 2 (by decide) (by decide) (by decide)

/-- C10: whenever a tunnel handler exits, `unregisterConnection`
unconditionally deletes the map entry under its tunnelID and appends a
`down` check — even when the entry currently holds a newer connection that
displacement installed; that newer connection stays non-closed but is gone
from the registry, and `GetConnection` / `IsConnected` then report the
tunnel as not connected. -/
theorem C10_unregister_unconditional (s : RegState) (tid : String) (c : Nat)
    (hreg : lookupConn s.connections tid = some c) (hopen : c ∉ s.closed) :
    lookupConn (unregisterConnection s tid).connections tid = none ∧
    (unregisterConnection s tid).checks = s.checks ++ [⟨tid, "down", none, none⟩] ∧
    c ∉ (unregisterConnection s tid).closed ∧
    GetConnection (unregisterConnection s tid) tid = none ∧
    IsConnected (unregisterConnection s tid) tid = false := by
  have herase := lookupConn_mapErase s.connections tid
  refine ⟨herase, rfl, hopen, ?_, ?_⟩
  · unfold GetConnection
    unfold unregisterConnection
    simp only []
    rw [herase]
  · unfold IsConnected GetConnection
    unfold unregisterConnection
    simp only []
    rw [herase]
    rfl

theorem C10_unregister_unconditional_witness :
    lookupConn (unregisterConnection ⟨[("t1", 2)], [1], []⟩ "t1").connections "t1" =
      none ∧
    (unregisterConnection ⟨[("t1", 2)], [1], []⟩ "t1").checks =
      [] ++ [⟨"t1", "down", none, none⟩] ∧
    2 ∉ (unregisterConnection ⟨[("t1", 2)], [1], []⟩ "t1").closed ∧
    GetConnection (unregisterConnection ⟨[("t1", 2)], [1], []⟩ "t1") "t1" = none ∧
    IsConnected (unregisterConnection ⟨[("t1", 2)], [1], []⟩ "t1") "t1" = false := by
  exact C10_unregister_unconditional ⟨[("t1", 2)], [1], []⟩ "t1" 2 (by decide) (by decide)

/-! ## Liveness probing (`TunnelManager.performHealthChecks`, tunnel.go 287-336)

The probe iterates over a snapshot of the connection map.  For each entry
it skips closed connections; closes (and records a `down` check with error
"Connection timeout" for) a connection whose `LastPing` lies more than
`PingInterval*3` in the past; otherwise sends a ping, and on a ping error
closes the connection and records a `down` check with the error text.
The per-connection observations (`LastPing`, whether `Ping` succeeds and
its error text) are the probe's environment. -/

/-- What the probe reads of each connection: the current time, the ping
interval, each connection's `LastPing`, and whether (and how) `Ping`
fails. -/
structure HealthEnv where
  now : Nat
  pingInterval : Nat
  lastPing : Nat → Nat
  pingOk : Nat → Bool
  pingErr : Nat → String

/-- One loop iteration of `performHealthChecks` for one snapshot entry.
The accumulator carries the registry state and the list of connections a
ping was sent to. -/
def healthCheckConn (env : HealthEnv) :
    RegState × List Nat → String × Nat → RegState × List Nat
  | (s, pings), (tid, c) =>
    if s.closed.contains c then (s, pings)
    else if env.now - env.lastPing c > env.pingInterval * 3 then
      ({ s with
          closed := c :: s.closed,
          checks := s.checks ++ [⟨tid, "down", none, some "Connection timeout"⟩] },
        pings)
    else if env.pingOk c then (s, pings ++ [c])
    else
      ({ s with
          closed := c :: s.closed,
          checks := s.checks ++ [⟨tid, "down", none, some (env.pingErr c)⟩] },
        pings ++ [c])

/-- `TunnelManager.performHealthChecks`: fold the loop body over the
snapshot of the connection map.  Returns the state after the pass and the
connections that were sent a ping. -/
def performHealthChecks (env : HealthEnv) (s : RegState) : RegState × List Nat :=
  s.connections.foldl (healthCheckConn env) (s, [])

theorem healthCheckConn_closed_mono (env : HealthEnv) (acc : RegState × List Nat)
    (entry : String × Nat) {x : Nat} (h : x ∈ acc.1.closed) :
    x ∈ (healthCheckConn env acc entry).1.closed := by
  obtain ⟨s, pings⟩ := acc
  obtain ⟨tid, c⟩ := entry
  unfold healthCheckConn
  simp only []
  split_ifs <;> simp_all

theorem healthCheckConn_checks_mono (env : HealthEnv) (acc : RegState × List Nat)
    (entry : String × Nat) {row : Check} (h : row ∈ acc.1.checks) :
    row ∈ (healthCheckConn env acc entry).1.checks := by
  obtain ⟨s, pings⟩ := acc
  obtain ⟨tid, c⟩ := entry
  unfold healthCheckConn
  simp only []
  split_ifs <;> simp_all

theorem healthCheckConn_pings_mono (env : HealthEnv) (acc : RegState × List Nat)
    (entry : String × Nat) {x : Nat} (h : x ∈ acc.2) :
    x ∈ (healthCheckConn env acc entry).2 := by
  obtain ⟨s, pings⟩ := acc
  obtain ⟨tid, c⟩ := entry
  unfold healthCheckConn
  simp only []
  split_ifs <;> simp_all

theorem healthCheckConn_closed_new (env : HealthEnv) (acc : RegState × List Nat)
    (entry : String × Nat) {x : Nat}
    (h : x ∈ (healthCheckConn env acc entry).1.closed) :
    x = entry.2 ∨ x ∈ acc.1.closed := by
  obtain ⟨s, pings⟩ := acc
  obtain ⟨tid, c⟩ := entry
  unfold healthCheckConn at h
  simp only [] at h
  split_ifs at h <;> simp_all

theorem foldHealth_closed_mono (env : HealthEnv) (l : List (String × Nat))
    (acc : RegState × List Nat) {x : Nat} (h : x ∈ acc.1.closed) :
    x ∈ (l.foldl (healthCheckConn env) acc).1.closed := by
  induction l generalizing acc with
  | nil => exact h
  | cons p rest ih =>
    exact ih _ (healthCheckConn_closed_mono env acc p h)

theorem foldHealth_checks_mono (env : HealthEnv) (l : List (String × Nat))
    (acc : RegState × List Nat) {row : Check} (h : row ∈ acc.1.checks) :
    row ∈ (l.foldl (healthCheckConn env) acc).1.checks := by
  induction l generalizing acc with
  | nil => exact h
  | cons p rest ih =>
    exact ih _ (healthCheckConn_checks_mono env acc p h)

theorem foldHealth_pings_mono (env : HealthEnv) (l : List (String × Nat))
    (acc : RegState × List Nat) {x : Nat} (h : x ∈ acc.2) :
    x ∈ (l.foldl (healthCheckConn env) acc).2 := by
  induction l generalizing acc with
  | nil => exact h
  | cons p rest ih =>
    exact ih _ (healthCheckConn_pings_mono env acc p h)

theorem foldHealth_not_closed (env : HealthEnv) (l : List (String × Nat))
    (acc : RegState × List Nat) {x : Nat} (hl : ∀ p ∈ l, p.2 ≠ x)
    (h : x ∉ acc.1.closed) :
    x ∉ (l.foldl (healthCheckConn env) acc).1.closed := by
  induction l generalizing acc with
  | nil => exact h
  | cons p rest ih =>
    refine ih _ (fun q hq => hl q (List.mem_cons_of_mem p hq)) ?_
    intro hmem
    rcases healthCheckConn_closed_new env acc p hmem with he | he
    · exact hl p (List.mem_cons_self p rest) he.symm
    · exact h he

theorem healthCheckConn_c_stale (env : HealthEnv) (s0 : RegState) (pings0 : List Nat)
    (tid : String) (c : Nat) (hopen : c ∉ s0.closed)
    (hstale : env.now - env.lastPing c > env.pingInterval * 3) :
    healthCheckConn env (s0, pings0) (tid, c) =
      ({ s0 with
          closed := c :: s0.closed,
          checks := s0.checks ++ [⟨tid, "down", none, some "Connection timeout"⟩] },
        pings0) := by
  unfold healthCheckConn
  simp only []
  rw [if_neg (by simpa using hopen), if_pos hstale]

theorem healthCheckConn_c_ok (env : HealthEnv) (s0 : RegState) (pings0 : List Nat)
    (tid : String) (c : Nat) (hopen : c ∉ s0.closed)
    (hfresh : ¬ env.now - env.lastPing c > env.pingInterval * 3)
    (hok : env.pingOk c = true) :
    healthCheckConn env (s0, pings0) (tid, c) = (s0, pings0 ++ [c]) := by
  unfold healthCheckConn
  simp only []
  rw [if_neg (by simpa using hopen), if_neg hfresh, if_pos hok]

theorem healthCheckConn_c_fail (env : HealthEnv) (s0 : RegState) (pings0 : List Nat)
    (tid : String) (c : Nat) (hopen : c ∉ s0.closed)
    (hfresh : ¬ env.now - env.lastPing c > env.pingInterval * 3)
    (hfail : env.pingOk c = false) :
    healthCheckConn env (s0, pings0) (tid, c) =
      ({ s0 with
          closed := c :: s0.closed,
          checks := s0.checks ++ [⟨tid, "down", none, some (env.pingErr c)⟩] },
        pings0 ++ [c]) := by
  unfold healthCheckConn
  simp only []
  rw [if_neg (by simpa using hopen), if_neg hfresh, if_neg (by simp [hfail])]

theorem foldHealth_entry (env : HealthEnv) (l : List (String × Nat))
    (tid : String) (c : Nat)
    (hfilter : l.filter (fun p => p.2 == c) = [(tid, c)]) :
    ∀ acc : RegState × List Nat, c ∉ acc.1.closed →
    (env.now - env.lastPing c > env.pingInterval * 3 →
       c ∈ (l.foldl (healthCheckConn env) acc).1.closed ∧
       (⟨tid, "down", none, some "Connection timeout"⟩ : Check) ∈
         (l.foldl (healthCheckConn env) acc).1.checks) ∧
    (¬ env.now - env.lastPing c > env.pingInterval * 3 →
       c ∈ (l.foldl (healthCheckConn env) acc).2 ∧
       (env.pingOk c = true → c ∉ (l.foldl (healthCheckConn env) acc).1.closed) ∧
       (env.pingOk c = false →
          c ∈ (l.foldl (healthCheckConn env) acc).1.closed ∧
          (⟨tid, "down", none, some (env.pingErr c)⟩ : Check) ∈
            (l.foldl (healthCheckConn env) acc).1.checks)) := by
  induction l with
  | nil => simp at hfilter
  | cons p rest ih =>
    intro acc hopen
    obtain ⟨s0, pings0⟩ := acc
    rw [List.filter_cons] at hfilter
    by_cases hp : p.2 = c
    · rw [if_pos (by simpa using hp)] at hfilter
      simp only [List.cons.injEq] at hfilter
      obtain ⟨rfl, hrest⟩ := hfilter
      have hnone : ∀ q ∈ rest, q.2 ≠ c := by
        intro q hq
        have := List.filter_eq_nil_iff.mp hrest q hq
        simpa using this
      constructor
      · intro hstale
        rw [List.foldl_cons, healthCheckConn_c_stale env s0 pings0 tid c hopen hstale]
        constructor
        · exact foldHealth_closed_mono env rest _ (by simp)
        · exact foldHealth_checks_mono env rest _ (by simp)
      · intro hfresh
        cases hok : env.pingOk c with
        | true =>
          rw [List.foldl_cons, healthCheckConn_c_ok env s0 pings0 tid c hopen hfresh hok]
          refine ⟨foldHealth_pings_mono env rest _ (by simp), fun _ => ?_,
            fun hcontra => by simp [hok] at hcontra⟩
          exact foldHealth_not_closed env rest _ hnone hopen
        | false =>
          rw [List.foldl_cons, healthCheckConn_c_fail env s0 pings0 tid c hopen hfresh hok]
          refine ⟨foldHealth_pings_mono env rest _ (by simp),
            fun hcontra => by simp [hok] at hcontra,
            fun _ => ?_⟩
          exact ⟨foldHealth_closed_mono env rest _ (by simp),
            foldHealth_checks_mono env rest _ (by simp)⟩
    · rw [if_neg (by simpa using hp)] at hfilter
      have hnotc : c ∉ (healthCheckConn env (s0, pings0) p).1.closed := by
        intro hmem
        rcases healthCheckConn_closed_new env (s0, pings0) p hmem with he | he
        · exact hp he.symm
        · exact hopen he
      rw [List.foldl_cons]
      exact ih hfilter _ hnotc

/-- C8 as frozen is false on the code in one detail: the recorded reason
string is "Connection timeout" (capitalised, tunnel.go 310), not
"connection timeout".  Concretely: one stale connection produces exactly
one down check whose error is `some "Connection timeout"`, and no check
whose error is `some "connection timeout"`. -/
theorem C8_reason_capitalisation_counterexample :
    (performHealthChecks ⟨1000, 1, fun _ => 0, fun _ => true, fun _ => ""⟩
      ⟨[("t1", 1)], [], []⟩).1.checks =
      [⟨"t1", "down", none, some "Connection timeout"⟩] ∧
    ¬ ∃ k ∈ (performHealthChecks ⟨1000, 1, fun _ => 0, fun _ => true, fun _ => ""⟩
      ⟨[("t1", 1)], [], []⟩).1.checks, k.error = some "connection timeout" := by
  constructor
  · rfl
  · decide

/-- C8 amended (reason capitalised as in the source): on a probe pass over
the snapshot, a registered non-closed connection whose last ping/pong
activity lies more than `PingInterval*3` in the past is closed and a
`down` check with error "Connection timeout" is recorded for its tunnel;
every other non-closed connection is sent a ping; a ping send failure
closes that connection and records a `down` check with the error text,
while a successful ping leaves it open. -/
theorem C8_healthChecks (env : HealthEnv) (s : RegState) (tid : String) (c : Nat)
    (hfilter : s.connections.filter (fun p => p.2 == c) = [(tid, c)])
    (hopen : c ∉ s.closed) :
    (env.now - env.lastPing c > env.pingInterval * 3 →
       c ∈ (performHealthChecks env s).1.closed ∧
       (⟨tid, "down", none, some "Connection timeout"⟩ : Check) ∈
         (performHealthChecks env s).1.checks) ∧
    (¬ env.now - env.lastPing c > env.pingInterval * 3 →
       c ∈ (performHealthChecks env s).2 ∧
       (env.pingOk c = true → c ∉ (performHealthChecks env s).1.closed) ∧
       (env.pingOk c = false →
          c ∈ (performHealthChecks env s).1.closed ∧
          (⟨tid, "down", none, some (env.pingErr c)⟩ : Check) ∈
            (performHealthChecks env s).1.checks)) :=
  foldHealth_entry env s.connections tid c hfilter (s, []) hopen

theorem C8_healthChecks_witness :
    (1 ∈ (performHealthChecks ⟨1000, 1, fun _ => 0, fun _ => true, fun _ => ""⟩
        ⟨[("t1", 1)], [], []⟩).1.closed ∧
      (⟨"t1", "down", none, some "Connection timeout"⟩ : Check) ∈
        (performHealthChecks ⟨1000, 1, fun _ => 0, fun _ => true, fun _ => ""⟩
          ⟨[("t1", 1)], [], []⟩).1.checks) ∧
    (2 ∈ (performHealthChecks ⟨10, 30, fun _ => 5, fun _ => true, fun _ => ""⟩
        ⟨[("t2", 2)], [], []⟩).2 ∧
      2 ∉ (performHealthChecks ⟨10, 30, fun _ => 5, fun _ => true, fun _ => ""⟩
        ⟨[("t2", 2)], [], []⟩).1.closed) := by
  constructor
  · exact (C8_healthChecks ⟨1000, 1, fun _ => 0, fun _ => true, fun _ => ""⟩
      ⟨[("t1", 1)], [], []⟩ "t1" 1 (by decide) (by decide)).1 (by decide)
  · have h := (C8_healthChecks ⟨10, 30, fun _ => 5, fun _ => true, fun _ => ""⟩
      ⟨[("t2", 2)], [], []⟩ "t2" 2 (by decide) (by decide)).2 (by decide)
    exact ⟨h.1, h.2.1 rfl⟩

/-! ## The frame-to-byte-stream adapter (`WebSocketConn.Read`)

`WebSocketConn` (the tunnel package's net.Conn wrapper around the
websocket) keeps `reader`, the reader of the current inbound frame.
`Read`: when `reader` is nil, `NextReader()` blocks for the next frame;
then `reader.Read(b)` is called, and when it returns `io.EOF` (which the
frame reader does once the message is exhausted) the method sets
`w.reader = nil` AND RETURNS THAT `io.EOF` TO ITS CALLER. -/

/-- The adapter's read-side state: the unread remainder of the current
frame (`w.reader`, `none` when nil) and the frames not yet handed out by
`NextReader`. -/
structure WSConnState where
  reader : Option (List Nat)
  frames : List (List Nat)
deriving DecidableEq, Repr

/-- What one `Read` call returns to the caller. -/
inductive ReadResult where
  | bytes (bs : List Nat)
  | eof
  | blocked
deriving DecidableEq, Repr

/-- The `w.reader.Read(b)` part of `WebSocketConn.Read`: the frame reader
returns data while any remains, and `(0, io.EOF)` once the frame is
exhausted — whereupon the method clears `w.reader` and passes the
`io.EOF` through. -/
def readFromReader (bufLen : Nat) (s : WSConnState) : ReadResult × WSConnState :=
  match s.reader with
  | some data =>
    if data.isEmpty then (.eof, { s with reader := none })
    else (.bytes (data.take bufLen), { s with reader := some (data.drop bufLen) })
  | none => (.eof, s)

/-- `WebSocketConn.Read` (part_003 lines 195-212): take the next frame
when no reader is current (blocking when none is available), then read
from the current reader. -/
def wsRead (bufLen : Nat) (s : WSConnState) : ReadResult × WSConnState :=
  match s.reader with
  | none =>
    match s.frames with
    | [] => (.blocked, s)
    | f :: rest => readFromReader bufLen ⟨some f, rest⟩
  | some _ => readFromReader bufLen s

/-- C7 is false on the code: with two queued inbound frames `[1, 2]` and
`[3, 4]`, the first read returns the first frame's bytes; the next read —
the frame now drained — returns `io.EOF` to the caller instead of blocking
for (and serving) the next frame; only the read after that serves `[3, 4]`.
So a frame boundary IS surfaced as an end-of-stream condition while the
channel is open. -/
theorem C7_eof_at_frame_boundary :
    (wsRead 2 ⟨none, [[1, 2], [3, 4]]⟩).1 = .bytes [1, 2] ∧
    (wsRead 2 (wsRead 2 ⟨none, [[1, 2], [3, 4]]⟩).2).1 = .eof ∧
    ¬ (wsRead 2 (wsRead 2 ⟨none, [[1, 2], [3, 4]]⟩).2).1 = .bytes [3, 4] ∧
    (wsRead 2 (wsRead 2 (wsRead 2 ⟨none, [[1, 2], [3, 4]]⟩).2).2).1 = .bytes [3, 4] := by
  decide

/-! ## `CopyBidirectional` (mux.go 202-229)

Two goroutines; one runs `io.Copy(conn1, conn2)` (direction 2→1), the
other `io.Copy(conn2, conn1)` (direction 1→2).  EACH goroutine carries
`defer conn1.Close()` and `defer conn2.Close()`: when either direction
finishes — its source reached EOF or errored — BOTH connections are fully
closed (`Close`, both halves; there is no `CloseWrite` half-close
anywhere).  The other direction, whichever prefix of its source it had
copied by then, is aborted by those closes and the remainder of its bytes
is lost.  The model serialises the race: `firstIs1to2` says which
direction finished first, and `k` is how many bytes the other direction
had copied at that moment. -/

/-- How a connection ends up closed. -/
inductive CloseMode where
  | fullClose
  | writeHalfOnly
  | notClosed
deriving DecidableEq, Repr

/-- The observable outcome of one `CopyBidirectional` run. -/
structure BiCopyOutcome where
  delivered1to2 : List Nat
  delivered2to1 : List Nat
  conn1Close : CloseMode
  conn2Close : CloseMode
deriving DecidableEq, Repr

/-- `CopyBidirectional conn1 conn2` modelled over the byte sources:
`src1` is what conn1 has inbound (to be copied to conn2), `src2` the
reverse.  The finishing direction has copied all of its source; the
deferred `conn2.Close(); conn1.Close()` of its goroutine then fully close
both connections, so the other direction stops after the `k`-byte prefix
it had managed to copy. -/
def CopyBidirectional (src1 src2 : List Nat) (firstIs1to2 : Bool) (k : Nat) :
    BiCopyOutcome :=
  if firstIs1to2 then
    { delivered1to2 := src1, delivered2to1 := src2.take k,
      conn1Close := .fullClose, conn2Close := .fullClose }
  else
    { delivered1to2 := src1.take k, delivered2to1 := src2,
      conn1Close := .fullClose, conn2Close := .fullClose }

/-- C9 is false on the code as frozen: after direction 1→2 reaches EOF
with reverse bytes `[2, 3]` still pending, the code has fully closed both
connections — neither side is merely write-half closed — and the pending
reverse bytes were lost instead of being flushed to the peer. -/
theorem C9_no_half_close_counterexample :
    (CopyBidirectional [1] [2, 3] true 0).conn1Close = .fullClose ∧
    (CopyBidirectional [1] [2, 3] true 0).conn2Close = .fullClose ∧
    ¬ (CopyBidirectional [1] [2, 3] true 0).conn2Close = .writeHalfOnly ∧
    ¬ (CopyBidirectional [1] [2, 3] true 0).delivered2to1 = [2, 3] := by
  decide

/-- C9 amended: in the bidirectional copy, when either direction reaches
EOF or errors, the proxy fully closes BOTH connections (both halves of
each side, via `Close`, not a write-half close), which aborts the other
direction: it delivers only the prefix it had copied, and any remaining
reverse bytes are lost rather than flushed. -/
theorem C9_full_close_both (src1 src2 : List Nat) (firstIs1to2 : Bool) (k : Nat)
    (hk : k < (if firstIs1to2 then src2 else src1).length) :
    (CopyBidirectional src1 src2 firstIs1to2 k).conn1Close = .fullClose ∧
    (CopyBidirectional src1 src2 firstIs1to2 k).conn2Close = .fullClose ∧
    (firstIs1to2 = true →
      (CopyBidirectional src1 src2 firstIs1to2 k).delivered1to2 = src1 ∧
      (CopyBidirectional src1 src2 firstIs1to2 k).delivered2to1 = src2.take k ∧
      (CopyBidirectional src1 src2 firstIs1to2 k).delivered2to1 ≠ src2) ∧
    (firstIs1to2 = false →
      (CopyBidirectional src1 src2 firstIs1to2 k).delivered2to1 = src2 ∧
      (CopyBidirectional src1 src2 firstIs1to2 k).delivered1to2 = src1.take k ∧
      (CopyBidirectional src1 src2 firstIs1to2 k).delivered1to2 ≠ src1) := by
  have htake : ∀ (l : List Nat), k < l.length → l.take k ≠ l := by
    intro l hl he
    have := congrArg List.length he
    rw [List.length_take] at this
    omega
  cases firstIs1to2 with
  | true =>
    rw [if_pos rfl] at hk
    refine ⟨rfl, rfl, fun _ => ⟨rfl, rfl, ?_⟩, fun hco => by simp at hco⟩
    simpa [CopyBidirectional] using htake src2 hk
  | false =>
    rw [if_neg (by simp)] at hk
    refine ⟨rfl, rfl, fun hco => by simp at hco, fun _ => ⟨rfl, rfl, ?_⟩⟩
    simpa [CopyBidirectional] using htake src1 hk

theorem C9_full_close_both_witness :
    (CopyBidirectional [1] [2, 3] true 1).conn1Close = .fullClose ∧
    (CopyBidirectional [1] [2, 3] true 1).conn2Close = .fullClose ∧
    (true = true →
      (CopyBidirectional [1] [2, 3] true 1).delivered1to2 = [1] ∧
      (CopyBidirectional [1] [2, 3] true 1).delivered2to1 = [2, 3].take 1 ∧
      (CopyBidirectional [1] [2, 3] true 1).delivered2to1 ≠ [2, 3]) ∧
    (true = false →
      (CopyBidirectional [1] [2, 3] true 1).delivered2to1 = [2, 3] ∧
      (CopyBidirectional [1] [2, 3] true 1).delivered1to2 = [1].take 1 ∧
      (CopyBidirectional [1] [2, 3] true 1).delivered1to2 ≠ [1]) := by
  exact C9_full_close_both [1] [2, 3] true 1 (by decide)

/-! ## Token lookup (`Store.GetTunnelByToken`, store.go 106-120)

The handshake validates the presented bearer token with
`SELECT … FROM tunnels WHERE token = ?` — a database string equality, not
`crypto/subtle.ConstantTimeCompare` (which appears nowhere in the
repository).  SQLite compares TEXT values with memcmp semantics: byte by
byte, stopping at the first difference — so the work done depends on how
long the common prefix is.  The schema declares `token TEXT NOT NULL
UNIQUE`, so at most one row can match. -/

/-- A row of the tunnels table (`models.Tunnel`, fields the lookup reads). -/
structure Tunnel where
  id : String
  name : String
  token : String
deriving DecidableEq, Repr

/-- Short-circuiting byte-string equality with an explicit cost: the
number of byte comparisons performed before the answer is known (the
timing-relevant quantity of a memcmp-style TEXT comparison). -/
def strEqCost : List Nat → List Nat → Bool × Nat
  | [], [] => (true, 0)
  | [], _ :: _ => (false, 0)
  | _ :: _, [] => (false, 0)
  | a :: as, b :: bs =>
    if a = b then
      ((strEqCost as bs).1, (strEqCost as bs).2 + 1)
    else (false, 1)

/-- `Store.GetTunnelByToken` over the table rows: the first row whose
token equals the presented token bytes, together with the total number of
byte comparisons the equality tests performed. -/
def GetTunnelByToken (tunnels : List Tunnel) (token : List Nat) :
    Option Tunnel × Nat :=
  match tunnels with
  | [] => (none, 0)
  | t :: rest =>
    if (strEqCost (strBytes t.token) token).1 then
      (some t, (strEqCost (strBytes t.token) token).2)
    else
      ((GetTunnelByToken rest token).1,
        (strEqCost (strBytes t.token) token).2 + (GetTunnelByToken rest token).2)

theorem strEqCost_true_iff (a b : List Nat) : (strEqCost a b).1 = true ↔ a = b := by
  induction a generalizing b with
  | nil =>
    cases b with
    | nil => simp [strEqCost]
    | cons y ys => simp [strEqCost]
  | cons x xs ih =>
    cases b with
    | nil => simp [strEqCost]
    | cons y ys =>
      unfold strEqCost
      by_cases hxy : x = y
      · rw [if_pos hxy]
        simp [hxy, ih ys]
      · rw [if_neg hxy]
        simp [hxy]

/-- C2 as frozen is false on the code: the lookup's comparison work is not
independent of how many characters match.  Against a stored token "aaaa",
the equal-length presented tokens "aaab" (three matching leading bytes)
and "baaa" (none) cost a different number of byte comparisons. -/
theorem C2_not_constant_time_counterexample :
    (strBytes "aaab").length = (strBytes "baaa").length ∧
    (GetTunnelByToken [⟨"t1", "n", "aaaa"⟩] (strBytes "aaab")).2 = 4 ∧
    (GetTunnelByToken [⟨"t1", "n", "aaaa"⟩] (strBytes "baaa")).2 = 1 ∧
    ¬ (GetTunnelByToken [⟨"t1", "n", "aaaa"⟩] (strBytes "aaab")).2 =
      (GetTunnelByToken [⟨"t1", "n", "aaaa"⟩] (strBytes "baaa")).2 := by
  refine ⟨rfl, rfl, rfl, by decide⟩

/-- C2 amended: the tunnel handshake's token lookup is a short-circuiting
(memcmp-style) string equality delegated to the database — its comparison
count varies with the length of the common prefix, so it is not
constant-time — and, the token column being UNIQUE (pairwise-distinct
token bytes), at most one row matches any presented token. -/
theorem C2_token_lookup (tunnels : List Tunnel) (token : List Nat)
    (huniq : (tunnels.map (fun t => strBytes t.token)).Nodup) :
    (tunnels.filter (fun t => (strEqCost (strBytes t.token) token).1)).length ≤ 1 ∧
    ∃ (tbl : List Tunnel) (tok1 tok2 : List Nat), tok1.length = tok2.length ∧
      (GetTunnelByToken tbl tok1).2 ≠ (GetTunnelByToken tbl tok2).2 := by
  constructor
  · induction tunnels with
    | nil => simp
    | cons t rest ih =>
      simp only [List.map_cons, List.nodup_cons] at huniq
      rw [List.filter_cons]
      by_cases hm : (strEqCost (strBytes t.token) token).1 = true
      · rw [if_pos hm]
        rw [strEqCost_true_iff] at hm
        have hnone : rest.filter (fun t => (strEqCost (strBytes t.token) token).1) = [] := by
          rw [List.filter_eq_nil_iff]
          intro q hq hqm
          rw [strEqCost_true_iff] at hqm
          exact huniq.1 (List.mem_map.mpr ⟨q, hq, by rw [hqm, hm]⟩)
        rw [hnone]
        simp
      · rw [if_neg (by simpa using hm)]
        exact ih huniq.2
  · exact ⟨[⟨"t1", "n", "aaaa"⟩], strBytes "aaab", strBytes "baaa", rfl, by decide⟩

theorem C2_token_lookup_witness :
    (([⟨"t1", "n", "aaaa"⟩, ⟨"t2", "m", "bbbb"⟩] : List Tunnel).filter
      (fun t => (strEqCost (strBytes t.token) (strBytes "aaaa")).1)).length ≤ 1 ∧
    ∃ (tbl : List Tunnel) (tok1 tok2 : List Nat), tok1.length = tok2.length ∧
      (GetTunnelByToken tbl tok1).2 ≠ (GetTunnelByToken tbl tok2).2 := by
  exact C2_token_lookup [⟨"t1", "n", "aaaa"⟩, ⟨"t2", "m", "bbbb"⟩]
    (strBytes "aaaa") (by decide)

/-! ## Ingress proxying (`ProxyManager`, part_002)

`handleHTTP` resolves the Host header to an HTTP service, checks the path
prefix, looks up the tunnel's live connection in the registry, opens a
stream on it — and then calls `wrapStreamWithHeader`, which builds a
`StreamManager` around a THROWAWAY zero-value `Connection` (nil websocket,
nil yamux session) and calls `OpenStream` on that dummy.  `Connection.Open`
on the dummy passes its closed check (`closed` is false) and then calls
`session.Open()` on the nil session: a nil-pointer panic.  The header is
therefore never written on the stream that was opened on the real
connection.  `handleTCPConnection` shares the same path. -/

/-- The fields of `models.Service` the proxy handlers read
(`PathPrefix` is called `pathPfx` here). -/
structure Service where
  tunnelID : String
  targetAddr : String
  pathPfx : String
  enabled : Bool
deriving DecidableEq, Repr

/-- A `*tunnel.Connection` as the proxy code sees it: whether a yamux
session is attached (nil for the zero value) and the closed flag. -/
structure GoConn where
  hasSession : Bool
  closed : Bool
deriving DecidableEq, Repr

/-- A Go call that can return a value, return an error, or panic. -/
inductive GoResult (α : Type) where
  | ok (val : α)
  | err
  | panic
deriving DecidableEq, Repr

/-- `Connection.Open` (part_003 76-86): a closed connection errors; an
attached session opens a stream when the mux can (the fresh stream
identifier is supplied by the environment, `none` when `session.Open`
fails); the nil session of a zero-value Connection panics. -/
def connOpen (c : GoConn) (sid : Option Nat) : GoResult Nat :=
  if c.closed then .err
  else if c.hasSession then
    match sid with
    | some n => .ok n
    | none => .err
  else .panic

/-- Writes performed on streams, by stream identifier, in order. -/
abbrev WriteLog := List (Nat × List Nat)

/-- `StreamManager.OpenStream` (mux.go 72-105) against a given connection:
open a stream on the connection, marshal the header, and write the
length-prefixed newline-terminated frame on that stream. -/
def StreamManagerOpenStream (conn : GoConn) (sid : Option Nat)
    (header : StreamHeader) (log : WriteLog) : GoResult Nat × WriteLog :=
  match connOpen conn sid with
  | .ok s =>
    match encodeHeader header with
    | some bytes => (.ok s, log ++ [(s, bytes)])
    | none => (.err, log)
  | .err => (.err, log)
  | .panic => (.panic, log)

/-- `ProxyManager.wrapStreamWithHeader` (part_002 294-298): builds a
StreamManager around a throwaway zero-value Connection and calls
OpenStream on IT; the real `stream` argument is never written to, and the
dummy's nil session panics inside `Connection.Open`. -/
def wrapStreamWithHeader (stream : Nat) (header : StreamHeader) (log : WriteLog) :
    GoResult Nat × WriteLog :=
  StreamManagerOpenStream ⟨false, false⟩ none header log

/-- What `handleHTTP` replies. -/
inductive HTTPResponse where
  | missingHost
  | serviceNotFound
  | serviceDisabled
  | pathNotFound
  | serviceUnavailable
  | panicked
  | proxied (stream : Nat)
deriving DecidableEq, Repr

/-- The HTTP status code each reply carries on the wire. -/
def httpStatusCode : HTTPResponse → Nat
  | .missingHost => 400
  | .serviceNotFound => 404
  | .serviceDisabled => 503
  | .pathNotFound => 404
  | .serviceUnavailable => 503
  | .panicked => 0
  | .proxied _ => 200

/-- The port-suffix stripping of handleHTTP (part_002 103-106): cut at the
last ':' when one is present (`strings.LastIndex`). -/
def stripPort (host : String) : String :=
  if host.data.contains ':' then
    String.mk (((host.data.reverse.dropWhile (fun c => c != ':')).drop 1).reverse)
  else host

/-- `ProxyManager.handleHTTP` (part_002 95-178).  Returns the response,
the writes performed on streams, and the streams opened on the tunnel's
real connection. -/
def handleHTTP (serviceByDomain : String → Option Service) (reg : RegState)
    (openStream : Nat → Option Nat) (host : String) (path : String) :
    HTTPResponse × WriteLog × List Nat :=
  if host = "" then (.missingHost, [], [])
  else
    match serviceByDomain (stripPort host) with
    | none => (.serviceNotFound, [], [])
    | some service =>
      if service.enabled = false then (.serviceDisabled, [], [])
      else if service.pathPfx ≠ "/" ∧ ¬ service.pathPfx.data.isPrefixOf path.data then
        (.pathNotFound, [], [])
      else
        match GetConnection reg service.tunnelID with
        | none => (.serviceUnavailable, [], [])
        | some conn =>
          match openStream conn with
          | none => (.serviceUnavailable, [], [])
          | some stream =>
            match wrapStreamWithHeader stream ⟨"http", service.targetAddr⟩ [] with
            | (.ok s, log) => (.proxied s, log, [stream])
            | (.err, log) => (.serviceUnavailable, log, [stream])
            | (.panic, log) => (.panicked, log, [stream])

/-- What `handleTCPConnection` does with the accepted client connection. -/
inductive TCPResult where
  | closedNoTunnel
  | closedOpenFail
  | panicked
  | proxied (stream : Nat)
deriving DecidableEq, Repr

/-- `ProxyManager.handleTCPConnection` (part_002 251-292): look up the
tunnel's live connection — the deferred Close simply drops the accepted
client connection when there is none — open a stream, and hand it to
wrapStreamWithHeader. -/
def handleTCPConnection (reg : RegState) (openStream : Nat → Option Nat)
    (service : Service) : TCPResult × WriteLog × List Nat :=
  match GetConnection reg service.tunnelID with
  | none => (.closedNoTunnel, [], [])
  | some conn =>
    match openStream conn with
    | none => (.closedOpenFail, [], [])
    | some stream =>
      match wrapStreamWithHeader stream ⟨"tcp", service.targetAddr⟩ [] with
      | (.ok s, log) => (.proxied s, log, [stream])
      | (.err, log) => (.closedOpenFail, log, [stream])
      | (.panic, log) => (.panicked, log, [stream])

/-- C6: an ingress request whose target tunnel has no live connection
(no registered entry, or a closed one — `GetConnection` returns none
either way) is rejected immediately: HTTP ingress replies 503 service
unavailable and TCP ingress closes the accepted connection; no stream is
opened and nothing is written or queued. -/
theorem C6_no_live_link_rejected :
    (∀ (serviceByDomain : String → Option Service) (reg : RegState)
        (openStream : Nat → Option Nat) (host path : String) (service : Service),
      host ≠ "" →
      serviceByDomain (stripPort host) = some service →
      service.enabled = true →
      (service.pathPfx = "/" ∨ service.pathPfx.data.isPrefixOf path.data = true) →
      GetConnection reg service.tunnelID = none →
      handleHTTP serviceByDomain reg openStream host path =
        (.serviceUnavailable, [], []) ∧
      httpStatusCode (handleHTTP serviceByDomain reg openStream host path).1 = 503) ∧
    (∀ (reg : RegState) (openStream : Nat → Option Nat) (service : Service),
      GetConnection reg service.tunnelID = none →
      handleTCPConnection reg openStream service = (.closedNoTunnel, [], [])) := by
  constructor
  · intro serviceByDomain reg openStream host path service hhost hsvc hen hpath hconn
    have hmain : handleHTTP serviceByDomain reg openStream host path =
        (.serviceUnavailable, [], []) := by
      unfold handleHTTP
      rw [if_neg hhost, hsvc]
      simp only []
      rw [if_neg (by simp [hen])]
      rw [if_neg (by
        rcases hpath with hp | hp
        · simp [hp]
        · simp [hp])]
      rw [hconn]
    exact ⟨hmain, by rw [hmain]; rfl⟩
  · intro reg openStream service hconn
    unfold handleTCPConnection
    rw [hconn]

theorem C6_no_live_link_rejected_witness :
    (handleHTTP
        (fun d => if d = "app.example.com" then
          some ⟨"t3", "127.0.0.1:9000", "/", true⟩ else none)
        ⟨[], [], []⟩ (fun _ => none) "app.example.com" "/" =
        (.serviceUnavailable, [], []) ∧
      httpStatusCode (handleHTTP
        (fun d => if d = "app.example.com" then
          some ⟨"t3", "127.0.0.1:9000", "/", true⟩ else none)
        ⟨[], [], []⟩ (fun _ => none) "app.example.com" "/").1 = 503) ∧
    handleTCPConnection ⟨[("t4", 9)], [9], []⟩ (fun _ => none)
      ⟨"t4", "127.0.0.1:22", "/", true⟩ = (.closedNoTunnel, [], []) := by
  constructor
  · exact C6_no_live_link_rejected.1
      (fun d => if d = "app.example.com" then
        some ⟨"t3", "127.0.0.1:9000", "/", true⟩ else none)
      ⟨[], [], []⟩ (fun _ => none) "app.example.com" "/"
      ⟨"t3", "127.0.0.1:9000", "/", true⟩
      (by decide) (by decide) rfl (Or.inl rfl) (by decide)
  · exact C6_no_live_link_rejected.2 ⟨[("t4", 9)], [9], []⟩ (fun _ => none)
      ⟨"t4", "127.0.0.1:22", "/", true⟩ (by decide)

/-- C1 fails on the code: even when an ingress request succeeds in opening
a stream on the target tunnel's live connection, the encoded stream header
is never written on that opened stream.  `wrapStreamWithHeader` calls
`OpenStream` on a throwaway zero-value Connection whose nil yamux session
makes `Connection.Open` panic, so the request dies with the real stream's
write log still empty.  Concretely: the request below reaches the live
connection 7, opens stream 42 on it, and the handler panics with no bytes
— header or payload — written on stream 42 (the write log is empty). -/
theorem C1_header_never_written_on_real_stream :
    handleHTTP
      (fun d => if d = "app.example.com" then
        some ⟨"t1", "127.0.0.1:9000", "/", true⟩ else none)
      ⟨[("t1", 7)], [], []⟩ (fun c => if c = 7 then some 42 else none)
      "app.example.com" "/" = (.panicked, [], [42]) ∧
    wrapStreamWithHeader 42 ⟨"http", "127.0.0.1:9000"⟩ [] = (.panic, []) ∧
    handleTCPConnection ⟨[("t1", 7)], [], []⟩ (fun c => if c = 7 then some 42 else none)
      ⟨"t1", "127.0.0.1:22", "/", true⟩ = (.panicked, [], [42]) := by
  refine ⟨rfl, rfl, rfl⟩

end Picotunnel
